import Mathlib

/-!
Verification of the batch-ingestion logic of the e-commerce ETL scripts.

The embedding models, from the source:
* `generate_row_key` and the per-record transform of `load_sessions`
  (`src/hbase_loader.py`): build a row key `user_id + "_" + start_time`
  and a column-family/value mapping from a session record whose dict
  accesses may fail with a `KeyError`;
* the batching loop of `load_sessions`: accumulate puts into a batch,
  send it when `batch_count >= batch_size`, send the non-empty remainder
  after the source is exhausted, accumulate `total_loaded`;
* the file discovery of `load_sessions` (`sessions_*.json` filter, sorted);
* the chunked `insert_many` loop of `load_transactions`
  (`src/mongodb_loader.py`): slices `data[i:i+batch_size]`;
* the row-key user-id extraction of `src/hbase_queries.py`:
  `split('_')` and rejoin of the first two parts;
* an overwrite-by-key sink state, to reason about re-ingestion.

Python strings are modelled as `List Char`, dictionaries whose accesses
may raise `KeyError` as `Option` fields read through `dict_get`, and a
raised exception as an `Except`/error value that aborts the run.
-/

abbrev Str := List Char

abbrev RowData := List (Str × Str)

/-- One HBase put: `(row_key, data)` as prepared by the loop body of
`load_sessions` before `batch.put`. -/
abbrev Entry := Str × RowData

structure DeviceProfile where
  type : Option Str
  os : Option Str
  browser : Option Str
deriving DecidableEq

structure GeoData where
  city : Option Str
  state : Option Str
  country : Option Str
  ip_address : Option Str
deriving DecidableEq

/-- A session record as read from a `sessions_*.json` file.  Each field is
`Option`al: a missing key makes the corresponding dict access raise. -/
structure Session where
  user_id : Option Str
  session_id : Option Str
  start_time : Option Str
  end_time : Option Str
  duration_seconds : Option Int
  conversion_status : Option Str
  referrer : Option Str
  device_profile : Option DeviceProfile
  geo_data : Option GeoData
  viewed_products : Option (List Str)
  cart_contents : Option (List Str)
  page_views : Option (List Str)
deriving DecidableEq

/-- `generate_row_key` of `src/hbase_loader.py`: `f"{user_id}_{start_time}"`. -/
def generate_row_key (user_id start_time : Str) : Str :=
  user_id ++ '_' :: start_time

/-- A Python dict access `d['key']`: returns the value or raises
`KeyError(key)`. -/
def dict_get (v : Option α) (key : Str) : Except Str α :=
  match v with
  | some x => Except.ok x
  | none => Except.error key

/-- Python `str(...)` on an integer. -/
def intStr (n : Int) : Str :=
  (toString n).data

/-- Python `str(...)` on a non-negative length. -/
def natStr (n : Nat) : Str :=
  (toString n).data

/-- Python `json.dumps` on a list of strings. -/
def json_dumps (l : List Str) : Str :=
  '[' :: List.intercalate [',', ' '] (l.map (fun s => '"' :: s ++ ['"'])) ++ [']']

/-- The body of the `load_sessions` loop of `src/hbase_loader.py`
(lines 101-130): compute the row key and the column-family data dict for
one session.  Dict accesses happen in the source's evaluation order, so a
missing field aborts with the `KeyError` of the first absent key. -/
def transform_session (s : Session) : Except Str Entry := do
  let uid ← dict_get s.user_id "user_id".data
  let stime ← dict_get s.start_time "start_time".data
  let row_key := generate_row_key uid stime
  let sid ← dict_get s.session_id "session_id".data
  let dur ← dict_get s.duration_seconds "duration_seconds".data
  let conv ← dict_get s.conversion_status "conversion_status".data
  let ref ← dict_get s.referrer "referrer".data
  let etime ← dict_get s.end_time "end_time".data
  let dp ← dict_get s.device_profile "device_profile".data
  let dtype ← dict_get dp.type "type".data
  let dos ← dict_get dp.os "os".data
  let dbrowser ← dict_get dp.browser "browser".data
  let geo ← dict_get s.geo_data "geo_data".data
  let gcity ← dict_get geo.city "city".data
  let gstate ← dict_get geo.state "state".data
  let gcountry ← dict_get geo.country "country".data
  let gip ← dict_get geo.ip_address "ip_address".data
  let vp ← dict_get s.viewed_products "viewed_products".data
  let cc ← dict_get s.cart_contents "cart_contents".data
  let pv ← dict_get s.page_views "page_views".data
  Except.ok (row_key,
    [("session_info:session_id".data, sid),
     ("session_info:duration".data, intStr dur),
     ("session_info:conversion_status".data, conv),
     ("session_info:referrer".data, ref),
     ("session_info:start_time".data, stime),
     ("session_info:end_time".data, etime),
     ("device:type".data, dtype),
     ("device:os".data, dos),
     ("device:browser".data, dbrowser),
     ("geo:city".data, gcity),
     ("geo:state".data, gstate),
     ("geo:country".data, gcountry),
     ("geo:ip_address".data, gip),
     ("activity:viewed_products".data, json_dumps vp),
     ("activity:cart_contents".data, json_dumps cc),
     ("activity:page_views_count".data, natStr pv.length)])

/-- Transform a whole source sequence in order, stopping (as the Python
loop does, by propagating the exception) at the first failing record. -/
def transform_all : List Session → Except Str (List Entry)
  | [] => Except.ok []
  | s :: rest => do
    let e ← transform_session s
    let es ← transform_all rest
    Except.ok (e :: es)

/-- How a run of the loader aborts: an uncaught `KeyError` from a record
transform, or an exception raised by `batch.send()`. -/
inductive RunError where
  | keyError : Str → RunError
  | sinkError : RunError
deriving DecidableEq

/-- The mutable state of the `load_sessions` loop: flushed batches so far
(in send order), the current in-memory `batch`, the `batch_count` counter,
the `total_loaded` counter, and the number of `batch.send()` attempts made
so far (the index an external sink behaviour is keyed by). -/
structure LoadState where
  flushed : List (List Entry)
  cur : List Entry
  batch_count : Nat
  total_loaded : Nat
  attempts : Nat
deriving DecidableEq

/-- The record loop of `load_sessions` (lines 101-142) over one file's
sessions.  `sinkOk i` tells whether the `i`-th `batch.send()` of the run
succeeds; a failing send raises, aborting the loop with the batch unsent
and `total_loaded` not incremented. -/
def load_loop (sinkOk : Nat → Bool) (batch_size : Nat) :
    List Session → LoadState → LoadState × Option RunError
  | [], st => (st, none)
  | s :: rest, st =>
    match transform_session s with
    | Except.error f => (st, some (RunError.keyError f))
    | Except.ok e =>
      let cur' := st.cur ++ [e]
      let bc' := st.batch_count + 1
      if batch_size ≤ bc' then
        if sinkOk st.attempts then
          load_loop sinkOk batch_size rest
            ⟨st.flushed ++ [cur'], [], 0, st.total_loaded + bc', st.attempts + 1⟩
        else
          (⟨st.flushed, cur', bc', st.total_loaded, st.attempts + 1⟩,
           some RunError.sinkError)
      else
        load_loop sinkOk batch_size rest
          ⟨st.flushed, cur', bc', st.total_loaded, st.attempts⟩

/-- The send-remaining step after one file's loop (lines 144-147):
`if batch_count > 0: batch.send(); total_loaded += batch_count`. -/
def flush_remainder (sinkOk : Nat → Bool) (st : LoadState) :
    LoadState × Option RunError :=
  if 0 < st.batch_count then
    if sinkOk st.attempts then
      (⟨st.flushed ++ [st.cur], [], 0, st.total_loaded + st.batch_count,
        st.attempts + 1⟩, none)
    else
      (⟨st.flushed, st.cur, st.batch_count, st.total_loaded, st.attempts + 1⟩,
       some RunError.sinkError)
  else
    (st, none)

/-- Process one session file (lines 97-147): start a fresh `batch` and
`batch_count`, run the record loop, then flush the remainder. -/
def load_one_file (sinkOk : Nat → Bool) (batch_size : Nat)
    (sessions : List Session) (st : LoadState) : LoadState × Option RunError :=
  match load_loop sinkOk batch_size sessions ⟨st.flushed, [], 0, st.total_loaded, st.attempts⟩ with
  | (st1, some e) => (st1, some e)
  | (st1, none) => flush_remainder sinkOk st1

/-- The outer file loop of `load_sessions` (lines 88-147): `total_loaded`
and the sink carry across files, the batch is fresh per file, and any
exception propagates, aborting the remaining files. -/
def load_files (sinkOk : Nat → Bool) (batch_size : Nat) :
    List (List Session) → LoadState → LoadState × Option RunError
  | [], st => (st, none)
  | f :: fs, st =>
    match load_one_file sinkOk batch_size f st with
    | (st1, some e) => (st1, some e)
    | (st1, none) => load_files sinkOk batch_size fs st1

/-- The outcome of running `load_sessions` on one source sequence (one
file): what was flushed, the unsent in-memory batch at termination, the
`total_loaded` counter, send attempts, and how (whether) the run aborted. -/
structure RunResult where
  flushed : List (List Entry)
  leftover : List Entry
  total_loaded : Nat
  attempts : Nat
  error : Option RunError
deriving DecidableEq

/-- One ingest run over a single source sequence, from a fresh state:
the per-file portion of `load_sessions` (lines 97-147). -/
def load_file (sinkOk : Nat → Bool) (batch_size : Nat)
    (sessions : List Session) : RunResult :=
  match load_one_file sinkOk batch_size sessions ⟨[], [], 0, 0, 0⟩ with
  | (st, err) => ⟨st.flushed, st.cur, st.total_loaded, st.attempts, err⟩

/-- `batch_size = 1000` of `load_sessions` (line 86). -/
def SESSIONS_BATCH_SIZE : Nat := 1000

/-- `batch_size = 10000` of `load_transactions` (line 100 of
`src/mongodb_loader.py`). -/
def TRANSACTIONS_BATCH_SIZE : Nat := 10000

/-- Lexicographic string comparison, as Python `sorted` orders `str`s. -/
def lexLe : Str → Str → Bool
  | [], _ => true
  | _ :: _, [] => false
  | a :: as, b :: bs => if a = b then lexLe as bs else decide (a < b)

def insertSorted (x : Str) : List Str → List Str
  | [] => [x]
  | y :: ys => if lexLe x y then x :: y :: ys else y :: insertSorted x ys

/-- Python `sorted` on a list of strings (insertion sort, same order). -/
def sortStr : List Str → List Str
  | [] => []
  | x :: xs => insertSorted x (sortStr xs)

/-- Line 77 of `src/hbase_loader.py`:
`sorted([f for f in os.listdir(data_dir) if f.startswith('sessions_') and f.endswith('.json')])`. -/
def session_files_of (dirFiles : List Str) : List Str :=
  sortStr (dirFiles.filter
    (fun f => "sessions_".data.isPrefixOf f && ".json".data.isSuffixOf f))

/-- What calling `load_sessions` yields: `ret` is the Python return value
(`some total` on a normal return, `none` when an exception propagated);
the other fields expose the externally visible effects. -/
structure SessionsResult where
  ret : Option Nat
  flushed : List (List Entry)
  leftover : List Entry
  total_loaded : Nat
  attempts : Nat
  error : Option RunError
deriving DecidableEq

/-- `load_sessions` of `src/hbase_loader.py` (lines 71-150): filter and
sort the directory listing, return `0` when no session file matches,
otherwise run the file loop and return `total_loaded`.  `contents f` is
the parsed JSON list of file `f`. -/
def load_sessions (sinkOk : Nat → Bool) (batch_size : Nat)
    (dirFiles : List Str) (contents : Str → List Session) : SessionsResult :=
  let session_files := session_files_of dirFiles
  if session_files = [] then
    ⟨some 0, [], [], 0, 0, none⟩
  else
    match load_files sinkOk batch_size (session_files.map contents)
        ⟨[], [], 0, 0, 0⟩ with
    | (st, some e) => ⟨none, st.flushed, st.cur, st.total_loaded, st.attempts, some e⟩
    | (st, none) => ⟨some st.total_loaded, st.flushed, [], st.total_loaded, st.attempts, none⟩

/-- The slicing loop of `load_transactions` (`src/mongodb_loader.py`,
lines 103-107): `for i in range(0, len(data), batch_size): data[i:i+batch_size]`. -/
def chunkList (C : Nat) : List α → List (List α)
  | [] => []
  | x :: xs =>
    if _h : C = 0 then []
    else (x :: xs).take C :: chunkList C ((x :: xs).drop C)
termination_by l => l.length
decreasing_by
  simp only [List.length_drop, List.length_cons]
  omega

/-- The batches `load_transactions` passes to `insert_many`, in order. -/
def transaction_batches (data : List α) (batch_size : Nat) : List (List α) :=
  chunkList batch_size data

/-- `total_inserted` as accumulated by `load_transactions`
(`insert_many` acknowledges one id per document of the batch). -/
def load_transactions_total (data : List α) (batch_size : Nat) : Nat :=
  (transaction_batches data batch_size).foldl (fun t b => t + b.length) 0

/-- Python `key.split(c)` for a one-character separator `c`
(consecutive separators yield empty parts, as in Python). -/
def splitOnChar (c : Char) : Str → List Str
  | [] => [[]]
  | x :: xs =>
    if x = c then [] :: splitOnChar c xs
    else
      match splitOnChar c xs with
      | [] => [[x]]
      | p :: ps => (x :: p) :: ps

/-- The user-id extraction of `src/hbase_queries.py` (line 103 and lines
223-224): `parts = row_key.split('_'); f"{parts[0]}_{parts[1]}"`.
`none` models the `IndexError` raised when there are fewer than two
parts. -/
def extract_user_id (row_key : Str) : Option Str :=
  match splitOnChar '_' row_key with
  | p0 :: p1 :: _ => some (p0 ++ '_' :: p1)
  | _ => none

/-- The sink's key/value state: HBase row key to latest written data. -/
abbrev SinkState := Str → Option RowData

/-- One put applied to the sink: an identical row key overwrites. -/
def sink_put (state : SinkState) (e : Entry) : SinkState :=
  fun k => if k = e.1 then some e.2 else state k

/-- Apply a sequence of puts (the flushed writes of a run, in order). -/
def apply_writes (ws : List Entry) (state : SinkState) : SinkState :=
  ws.foldl sink_put state

/-- The last write to key `k` in a write sequence, if any. -/
def last_write (ws : List Entry) (k : Str) : Option RowData :=
  match ws with
  | [] => none
  | e :: rest =>
    match last_write rest k with
    | some v => some v
    | none => if k = e.1 then some e.2 else none

/-- Rejoin the parts produced by `splitOnChar c` with `c` (helper used to
state that splitting is faithful). -/
def joinWith (c : Char) : List Str → Str
  | [] => []
  | [p] => p
  | p :: q :: rest => p ++ c :: joinWith c (q :: rest)

/-- A fully-populated session: every dict access succeeds. -/
def wSession : Session :=
  ⟨some "user_0".data, some "s1".data, some "t1".data, some "t2".data,
   some 5, some "converted".data, some "direct".data,
   some ⟨some "mobile".data, some "ios".data, some "safari".data⟩,
   some ⟨some "kgl".data, some "kv".data, some "rw".data, some "1.2.3.4".data⟩,
   some [], some [], some []⟩

/-- A second fully-populated session with the same `user_id` and
`start_time` as `wSession` but a different `session_id`. -/
def wSession2 : Session :=
  ⟨some "user_0".data, some "s2".data, some "t1".data, some "t2".data,
   some 9, some "abandoned".data, some "email".data,
   some ⟨some "desktop".data, some "linux".data, some "firefox".data⟩,
   some ⟨some "kgl".data, some "kv".data, some "rw".data, some "1.2.3.5".data⟩,
   some [], some [], some []⟩

/-- A third fully-populated session with a distinct row key. -/
def wSession3 : Session :=
  ⟨some "user_1".data, some "s3".data, some "t3".data, some "t4".data,
   some 2, some "converted".data, some "ads".data,
   some ⟨some "tablet".data, some "android".data, some "chrome".data⟩,
   some ⟨some "hye".data, some "sk".data, some "rw".data, some "1.2.3.6".data⟩,
   some [], some [], some []⟩

/-- `wSession` with the required field `referrer` missing: its transform
raises `KeyError('referrer')`. -/
def wSessionBad : Session :=
  ⟨some "user_0".data, some "s4".data, some "t5".data, some "t6".data,
   some 7, some "bounced".data, none,
   some ⟨some "mobile".data, some "ios".data, some "safari".data⟩,
   some ⟨some "kgl".data, some "kv".data, some "rw".data, some "1.2.3.7".data⟩,
   some [], some [], some []⟩

/-- The entry a session transforms to (for witness statements; only used
on sessions whose transform succeeds). -/
def wEntryOf (s : Session) : Entry :=
  match transform_session s with
  | Except.ok e => e
  | Except.error _ => ([], [])

/-! ### Basic helper lemmas -/

theorem flatten_length_of_forall {C : Nat} :
    ∀ (L : List (List α)), (∀ b ∈ L, b.length = C) →
      L.flatten.length = C * L.length := by
  intro L
  induction L with
  | nil => simp
  | cons b L ih =>
    intro h
    simp only [List.flatten_cons, List.length_append, List.length_cons]
    rw [ih (fun x hx => h x (List.mem_cons_of_mem _ hx)),
      h b (List.mem_cons_self _ _)]
    ring

theorem transform_all_nil : transform_all [] = Except.ok [] := rfl

theorem transform_all_cons_ok {s : Session} {e : Entry} {rest : List Session}
    {es : List Entry} (h1 : transform_session s = Except.ok e)
    (h2 : transform_all rest = Except.ok es) :
    transform_all (s :: rest) = Except.ok (e :: es) := by
  simp only [transform_all, h1, h2]
  rfl

theorem transform_all_cons_err {s : Session} {f : Str} {rest : List Session}
    (h1 : transform_session s = Except.error f) :
    transform_all (s :: rest) = Except.error f := by
  simp only [transform_all, h1]
  rfl

theorem transform_all_cons_rest_err {s : Session} {e : Entry}
    {rest : List Session} {f : Str} (h1 : transform_session s = Except.ok e)
    (h2 : transform_all rest = Except.error f) :
    transform_all (s :: rest) = Except.error f := by
  simp only [transform_all, h1, h2]
  rfl

theorem transform_all_length :
    ∀ {ss : List Session} {es : List Entry},
      transform_all ss = Except.ok es → es.length = ss.length := by
  intro ss
  induction ss with
  | nil =>
    intro es h
    simp only [transform_all, Except.ok.injEq] at h
    simp [← h]
  | cons s rest ih =>
    intro es h
    cases hts : transform_session s with
    | error f => rw [transform_all_cons_err hts] at h; exact absurd h (by simp)
    | ok e =>
      cases hta : transform_all rest with
      | error f =>
        rw [transform_all_cons_rest_err hts hta] at h
        exact absurd h (by simp)
      | ok es' =>
        rw [transform_all_cons_ok hts hta] at h
        cases h
        simp [ih hta]

theorem transform_all_take :
    ∀ {ss : List Session} {es : List Entry},
      transform_all ss = Except.ok es →
      ∀ m, transform_all (ss.take m) = Except.ok (es.take m) := by
  intro ss
  induction ss with
  | nil =>
    intro es h m
    simp only [transform_all, Except.ok.injEq] at h
    simp [← h, transform_all]
  | cons s rest ih =>
    intro es h m
    cases hts : transform_session s with
    | error f => rw [transform_all_cons_err hts] at h; exact absurd h (by simp)
    | ok e =>
      cases hta : transform_all rest with
      | error f =>
        rw [transform_all_cons_rest_err hts hta] at h
        exact absurd h (by simp)
      | ok es' =>
        rw [transform_all_cons_ok hts hta] at h
        cases h
        cases m with
        | zero => simp [transform_all]
        | succ m => simpa using transform_all_cons_ok hts (ih hta m)

theorem transform_all_append_ok {l1 l2 : List Session} {a b : List Entry}
    (h1 : transform_all l1 = Except.ok a) (h2 : transform_all l2 = Except.ok b) :
    transform_all (l1 ++ l2) = Except.ok (a ++ b) := by
  induction l1 generalizing a with
  | nil =>
    simp only [transform_all, Except.ok.injEq] at h1
    simp [← h1, h2]
  | cons s rest ih =>
    cases hts : transform_session s with
    | error f => rw [transform_all_cons_err hts] at h1; exact absurd h1 (by simp)
    | ok e =>
      cases hta : transform_all rest with
      | error f =>
        rw [transform_all_cons_rest_err hts hta] at h1
        exact absurd h1 (by simp)
      | ok es' =>
        rw [transform_all_cons_ok hts hta] at h1
        cases h1
        simpa using transform_all_cons_ok hts (ih hta)

theorem chunkList_nil (C : Nat) : chunkList C ([] : List α) = [] := by
  simp [chunkList]

theorem chunkList_cons {C : Nat} (hC : 0 < C) (x : α) (xs : List α) :
    chunkList C (x :: xs) =
      (x :: xs).take C :: chunkList C ((x :: xs).drop C) := by
  rw [chunkList]
  simp [Nat.pos_iff_ne_zero.mp hC]

theorem chunkList_flatten {C : Nat} (hC : 0 < C) :
    ∀ l : List α, (chunkList C l).flatten = l := by
  intro l
  generalize hn : l.length = n
  induction n using Nat.strong_induction_on generalizing l with
  | _ n ih =>
    cases l with
    | nil => simp [chunkList_nil]
    | cons x xs =>
      rw [chunkList_cons hC]
      simp only [List.flatten_cons]
      rw [ih ((x :: xs).drop C).length
        (by simp only [List.length_drop, List.length_cons] at hn ⊢; omega) _ rfl]
      exact List.take_append_drop C (x :: xs)

theorem add_sub_one_div {C : Nat} (hC : 0 < C) {N : Nat} (hN : 0 < N) :
    (N + C - 1) / C = (N - C + C - 1) / C + 1 := by
  by_cases hNC : C ≤ N
  · have h1 : N - C + C - 1 = N - 1 := by omega
    have h2 : N + C - 1 = (N - 1) + C := by omega
    rw [h1, h2, Nat.add_div_right _ hC]
  · have h1 : N - C + C - 1 = C - 1 := by omega
    rw [h1, Nat.div_eq_of_lt (show C - 1 < C by omega)]
    have h2 := (Nat.div_mod_unique (a := N + C - 1) (b := C) (c := N - 1)
      (d := 1) hC).mpr ⟨by omega, by omega⟩
    omega

theorem chunkList_length {C : Nat} (hC : 0 < C) :
    ∀ l : List α, (chunkList C l).length = (l.length + C - 1) / C := by
  intro l
  generalize hn : l.length = n
  induction n using Nat.strong_induction_on generalizing l with
  | _ n ih =>
    cases l with
    | nil =>
      simp only [List.length_nil] at hn
      rw [chunkList_nil, ← hn, List.length_nil, Nat.div_eq_of_lt (by omega)]
    | cons x xs =>
      rw [chunkList_cons hC]
      simp only [List.length_cons]
      rw [ih ((x :: xs).drop C).length
        (by simp only [List.length_drop, List.length_cons] at hn ⊢; omega) _ rfl]
      simp only [List.length_drop, List.length_cons] at hn ⊢
      rw [← hn]
      exact (add_sub_one_div hC (by omega)).symm

theorem chunkList_ne_nil {C : Nat} (hC : 0 < C) {l : List α} (hl : l ≠ []) :
    chunkList C l ≠ [] := by
  cases l with
  | nil => exact absurd rfl hl
  | cons x xs => rw [chunkList_cons hC]; simp

theorem chunkList_getLast {C : Nat} (hC : 0 < C) :
    ∀ l : List α, l.length % C ≠ 0 →
      ((chunkList C l).getLast?).map List.length = some (l.length % C) := by
  intro l
  generalize hn : l.length = n
  induction n using Nat.strong_induction_on generalizing l with
  | _ n ih =>
    intro hmod
    cases l with
    | nil => exact absurd (by rw [← hn]; simp) hmod
    | cons x xs =>
      rw [chunkList_cons hC]
      by_cases hd : (x :: xs).drop C = []
      · have hle : (x :: xs).length ≤ C := List.drop_eq_nil_iff.mp hd
        have hlt : (x :: xs).length < C := by
          rcases Nat.lt_or_ge (x :: xs).length C with h | h
          · exact h
          · have : (x :: xs).length = C := le_antisymm hle h
            rw [← hn] at hmod
            rw [this] at hmod
            simp [Nat.mod_self] at hmod
        rw [hd, chunkList_nil, List.take_of_length_le hle]
        simp only [List.getLast?_singleton, Option.map_some']
        rw [← hn, Nat.mod_eq_of_lt hlt]
      · have hgt : C < (x :: xs).length := by
          rcases Nat.lt_or_ge C (x :: xs).length with h | h
          · exact h
          · exact absurd (List.drop_eq_nil_iff.mpr h) hd
        have hne := chunkList_ne_nil hC hd
        obtain ⟨y, ys, hys⟩ := List.exists_cons_of_ne_nil hne
        rw [hys, List.getLast?_cons_cons, ← hys]
        have hmod' : ((x :: xs).drop C).length % C = (x :: xs).length % C := by
          simp only [List.length_drop]
          conv_rhs => rw [← Nat.sub_add_cancel (le_of_lt hgt)]
          rw [Nat.add_mod_right]
        rw [ih ((x :: xs).drop C).length
          (by simp only [List.length_drop, List.length_cons] at hn ⊢; omega) _ rfl
          (by rw [hmod', hn]; exact hmod), hmod', hn]

theorem chunkList_mem_length {C : Nat} (hC : 0 < C) :
    ∀ l : List α, ∀ b ∈ chunkList C l, b.length ≤ C := by
  intro l
  generalize hn : l.length = n
  induction n using Nat.strong_induction_on generalizing l with
  | _ n ih =>
    intro b hb
    cases l with
    | nil => rw [chunkList_nil] at hb; exact absurd hb (by simp)
    | cons x xs =>
      rw [chunkList_cons hC] at hb
      rcases List.mem_cons.mp hb with h | h
      · rw [h, List.length_take]
        omega
      · exact ih ((x :: xs).drop C).length
          (by simp only [List.length_drop, List.length_cons] at hn ⊢; omega) _ rfl b h

theorem chunkList_dropLast_length {C : Nat} (hC : 0 < C) :
    ∀ l : List α, ∀ b ∈ (chunkList C l).dropLast, b.length = C := by
  intro l
  generalize hn : l.length = n
  induction n using Nat.strong_induction_on generalizing l with
  | _ n ih =>
    intro b hb
    cases l with
    | nil => rw [chunkList_nil] at hb; exact absurd hb (by simp)
    | cons x xs =>
      rw [chunkList_cons hC] at hb
      by_cases hd : (x :: xs).drop C = []
      · rw [hd, chunkList_nil] at hb
        exact absurd hb (by simp)
      · have hgt : C < (x :: xs).length := by
          rcases Nat.lt_or_ge C (x :: xs).length with h | h
          · exact h
          · exact absurd (List.drop_eq_nil_iff.mpr h) hd
        have hne := chunkList_ne_nil hC hd
        obtain ⟨y, ys, hys⟩ := List.exists_cons_of_ne_nil hne
        rw [hys, List.dropLast_cons₂, ← hys] at hb
        rcases List.mem_cons.mp hb with h | h
        · rw [h, List.length_take]
          omega
        · exact ih ((x :: xs).drop C).length
            (by simp only [List.length_drop, List.length_cons] at hn ⊢; omega) _ rfl b h

/-! ### splitOnChar lemmas -/

theorem splitOnChar_ne_nil (c : Char) : ∀ s : Str, splitOnChar c s ≠ [] := by
  intro s
  cases s with
  | nil => simp [splitOnChar]
  | cons x xs =>
    simp only [splitOnChar]
    by_cases h : x = c
    · simp [h]
    · simp only [h, if_false]
      cases hs : splitOnChar c xs <;> simp

theorem splitOnChar_cons_self (c : Char) (xs : Str) :
    splitOnChar c (c :: xs) = [] :: splitOnChar c xs := by
  simp [splitOnChar]

theorem splitOnChar_cons_ne {c x : Char} (h : x ≠ c) {xs : Str} {p : Str}
    {ps : List Str} (hxs : splitOnChar c xs = p :: ps) :
    splitOnChar c (x :: xs) = (x :: p) :: ps := by
  simp [splitOnChar, h, hxs]

theorem splitOnChar_append (c : Char) :
    ∀ a b : Str, splitOnChar c (a ++ c :: b) =
      splitOnChar c a ++ splitOnChar c b := by
  intro a b
  induction a with
  | nil => simp [splitOnChar_cons_self, splitOnChar]
  | cons x a ih =>
    by_cases h : x = c
    · subst h
      rw [List.cons_append, splitOnChar_cons_self, splitOnChar_cons_self, ih]
      rfl
    · obtain ⟨p, ps, hps⟩ := List.exists_cons_of_ne_nil (splitOnChar_ne_nil c a)
      rw [hps] at ih
      rw [List.cons_append, splitOnChar_cons_ne h (by rw [ih]; rfl),
        splitOnChar_cons_ne h hps]
      rfl

theorem splitOnChar_of_count_zero {c : Char} :
    ∀ {s : Str}, s.count c = 0 → splitOnChar c s = [s] := by
  intro s
  induction s with
  | nil => intro _; rfl
  | cons x xs ih =>
    intro h
    simp only [List.count_cons] at h
    have hx : ¬(x = c) := by
      intro hh
      simp [hh] at h
    have hxs : xs.count c = 0 := by
      by_cases hbeq : x == c
      · simp [hbeq] at h
      · simp [hbeq] at h; exact h
    exact splitOnChar_cons_ne hx (ih hxs)

theorem splitOnChar_length (c : Char) :
    ∀ s : Str, (splitOnChar c s).length = s.count c + 1 := by
  intro s
  induction s with
  | nil => simp [splitOnChar]
  | cons x xs ih =>
    by_cases h : x = c
    · subst h
      rw [splitOnChar_cons_self]
      simp only [List.length_cons, List.count_cons, ih]
      simp
    · obtain ⟨p, ps, hps⟩ := List.exists_cons_of_ne_nil (splitOnChar_ne_nil c xs)
      rw [splitOnChar_cons_ne h hps]
      rw [hps] at ih
      simp only [List.length_cons, List.count_cons] at ih ⊢
      have : (x == c) = false := by simp [h]
      simp [this, ← ih]

theorem joinWith_splitOnChar (c : Char) :
    ∀ s : Str, joinWith c (splitOnChar c s) = s := by
  intro s
  induction s with
  | nil => rfl
  | cons x xs ih =>
    by_cases h : x = c
    · subst h
      rw [splitOnChar_cons_self]
      obtain ⟨q, qs, hqs⟩ := List.exists_cons_of_ne_nil (splitOnChar_ne_nil x xs)
      rw [hqs] at ih ⊢
      simp only [joinWith]
      rw [ih]
      rfl
    · obtain ⟨p, ps, hps⟩ := List.exists_cons_of_ne_nil (splitOnChar_ne_nil c xs)
      rw [splitOnChar_cons_ne h hps]
      rw [hps] at ih
      cases ps with
      | nil =>
        simp only [joinWith] at ih ⊢
        rw [ih]
      | cons q qs =>
        simp only [joinWith] at ih ⊢
        rw [List.cons_append, ih]

theorem eq_append_of_splitOnChar_pair {c : Char} {u a b : Str}
    (h : splitOnChar c u = [a, b]) : u = a ++ c :: b := by
  have := joinWith_splitOnChar c u
  rw [h] at this
  simp only [joinWith] at this
  exact this.symm

/-! ### Sink-state lemmas -/

theorem apply_writes_cons (e : Entry) (ws : List Entry) (s : SinkState) :
    apply_writes (e :: ws) s = apply_writes ws (sink_put s e) := rfl

theorem apply_writes_eq_last_write :
    ∀ (ws : List Entry) (s : SinkState) (k : Str),
      apply_writes ws s k =
        match last_write ws k with
        | some v => some v
        | none => s k := by
  intro ws
  induction ws with
  | nil => intro s k; rfl
  | cons e ws ih =>
    intro s k
    rw [apply_writes_cons, ih]
    cases hlw : last_write ws k with
    | some v => simp [last_write, hlw]
    | none =>
      simp only [last_write, hlw]
      by_cases hk : k = e.1
      · simp [sink_put, hk]
      · simp [sink_put, hk]

theorem apply_writes_idem (ws : List Entry) (s : SinkState) :
    apply_writes ws (apply_writes ws s) = apply_writes ws s := by
  funext k
  rw [apply_writes_eq_last_write ws (apply_writes ws s) k,
    apply_writes_eq_last_write ws s k]
  cases hlw : last_write ws k with
  | some v => simp
  | none => simp [apply_writes_eq_last_write ws s k, hlw]

/-! ### The loop invariant of `load_sessions` -/

theorem load_loop_spec (sinkOk : Nat → Bool) (C : Nat) :
    ∀ (ss : List Session) (st st' : LoadState) (err : Option RunError),
      load_loop sinkOk C ss st = (st', err) →
      st.batch_count = st.cur.length → st.cur.length < C →
      ∃ (new : List (List Entry)) (m : Nat) (es : List Entry),
        st'.flushed = st.flushed ++ new ∧
        (∀ b ∈ new, b.length = C) ∧
        st'.total_loaded = st.total_loaded + new.flatten.length ∧
        st'.attempts = st.attempts + new.length +
          (if err = some RunError.sinkError then 1 else 0) ∧
        st'.batch_count = st'.cur.length ∧
        (err = some RunError.sinkError →
          st'.cur.length = C ∧ sinkOk (st.attempts + new.length) = false) ∧
        (err ≠ some RunError.sinkError → st'.cur.length < C) ∧
        (∀ i, st.attempts ≤ i → i < st.attempts + new.length →
          sinkOk i = true) ∧
        m ≤ ss.length ∧
        transform_all (ss.take m) = Except.ok es ∧
        st'.flushed.flatten ++ st'.cur = st.flushed.flatten ++ st.cur ++ es ∧
        (err = none → m = ss.length) ∧
        (∀ f, err = some (RunError.keyError f) →
          transform_all ss = Except.error f) := by
  intro ss
  induction ss with
  | nil =>
    intro st st' err heq h1 h2
    simp only [load_loop] at heq
    injection heq with hA hB
    subst hA
    subst hB
    refine ⟨[], 0, [], by simp, by simp, by simp, by simp, h1, by simp,
      fun _ => h2, ?_, by omega, transform_all_nil, by simp, by simp, by simp⟩
    intro i hi1 hi2
    simp only [List.length_nil] at hi2
    omega
  | cons s rest ih =>
    intro st st' err heq h1 h2
    simp only [load_loop] at heq
    cases htr : transform_session s with
    | error f =>
      rw [htr] at heq
      simp only at heq
      injection heq with hA hB
      subst hA
      subst hB
      refine ⟨[], 0, [], by simp, by simp, by simp, by simp, h1, by simp,
        fun _ => h2, ?_, by omega, transform_all_nil, by simp, by simp, ?_⟩
      · intro i hi1 hi2
        simp only [List.length_nil] at hi2
        omega
      · intro f' hf
        have : f = f' := by
          injection hf with hf2
          injection hf2
        rw [← this]
        exact transform_all_cons_err htr
    | ok e =>
      rw [htr] at heq
      simp only at heq
      split at heq
      · rename_i hle
        have hCeq : st.batch_count + 1 = C := by omega
        split at heq
        · rename_i hsink
          obtain ⟨new', m', es', c1, c2, c3, c4, c5, c6, c7, c8, c9, c10,
            c11, c12, c13⟩ := ih _ st' err heq rfl (by simpa using by omega)
          refine ⟨(st.cur ++ [e]) :: new', m' + 1, e :: es', ?_, ?_, ?_, ?_,
            c5, ?_, c7, ?_, ?_, ?_, ?_, ?_, ?_⟩
          · rw [c1]
            simp
          · intro b hb
            rcases List.mem_cons.mp hb with hb | hb
            · rw [hb]
              simp only [List.length_append, List.length_singleton]
              omega
            · exact c2 b hb
          · rw [c3]
            simp only [List.flatten_cons, List.length_append,
              List.length_singleton]
            omega
          · rw [c4]
            simp only [List.length_cons]
            omega
          · intro hsE
            obtain ⟨d1, d2⟩ := c6 hsE
            refine ⟨d1, ?_⟩
            rw [show st.attempts + ((st.cur ++ [e]) :: new').length =
              st.attempts + 1 + new'.length by simp; omega]
            exact d2
          · intro i hi1 hi2
            by_cases hieq : i = st.attempts
            · rw [hieq]
              exact hsink
            · refine c8 i (by simp only; omega) ?_
              simp only [List.length_cons] at hi2
              simp only
              omega
          · simp only [List.length_cons]
            omega
          · exact transform_all_cons_ok htr c10
          · rw [c11]
            simp [List.flatten_append, List.append_assoc]
          · intro hn
            rw [c12 hn]
            simp
          · intro f hf
            exact transform_all_cons_rest_err htr (c13 f hf)
        · rename_i hsink
          injection heq with hA hB
          subst hA
          subst hB
          have hsinkF : sinkOk st.attempts = false := by
            simpa using hsink
          refine ⟨[], 1, [e], by simp, by simp, by simp, by simp, ?_, ?_,
            ?_, ?_, by simp, ?_, ?_, by simp, by simp⟩
          · simp only [List.length_append, List.length_singleton]
            omega
          · intro _
            constructor
            · simp only [List.length_append, List.length_singleton]
              omega
            · simpa using hsinkF
          · intro hne
            exact absurd rfl hne
          · intro i hi1 hi2
            simp only [List.length_nil] at hi2
            omega
          · simpa using transform_all_cons_ok htr transform_all_nil
          · simp [List.append_assoc]
      · rename_i hle
        obtain ⟨new', m', es', c1, c2, c3, c4, c5, c6, c7, c8, c9, c10,
          c11, c12, c13⟩ := ih _ st' err heq
          (by simp only [List.length_append, List.length_singleton]; omega)
          (by simp only [List.length_append, List.length_singleton]; omega)
        refine ⟨new', m' + 1, e :: es', c1, c2, c3, c4, c5, c6, c7, c8,
          ?_, ?_, ?_, ?_, ?_⟩
        · simp only [List.length_cons]
          omega
        · exact transform_all_cons_ok htr c10
        · rw [c11]
          simp [List.append_assoc]
        · intro hn
          rw [c12 hn]
          simp
        · intro f hf
          exact transform_all_cons_rest_err htr (c13 f hf)

theorem load_one_file_spec (sinkOk : Nat → Bool) {C : Nat} (hC : 0 < C)
    (sessions : List Session) (st st' : LoadState) (err : Option RunError)
    (heq : load_one_file sinkOk C sessions st = (st', err)) :
    ∃ (newFull newRem : List (List Entry)) (m : Nat) (es : List Entry),
      st'.flushed = st.flushed ++ (newFull ++ newRem) ∧
      (∀ b ∈ newFull, b.length = C) ∧
      (newRem = [] ∨ ∃ r, newRem = [r] ∧ 0 < r.length ∧ r.length < C) ∧
      st'.total_loaded = st.total_loaded + (newFull ++ newRem).flatten.length ∧
      st'.attempts = st.attempts + (newFull ++ newRem).length +
        (if err = some RunError.sinkError then 1 else 0) ∧
      st'.cur.length ≤ C ∧
      (err = some RunError.sinkError →
        sinkOk (st.attempts + (newFull ++ newRem).length) = false ∧
          st'.cur ≠ []) ∧
      (∀ i, st.attempts ≤ i → i < st.attempts + (newFull ++ newRem).length →
        sinkOk i = true) ∧
      m ≤ sessions.length ∧
      transform_all (sessions.take m) = Except.ok es ∧
      (newFull ++ newRem).flatten ++ st'.cur = es ∧
      (err = none → st'.cur = [] ∧ m = sessions.length) ∧
      (∀ f, err = some (RunError.keyError f) →
        transform_all sessions = Except.error f) := by
  unfold load_one_file at heq
  cases hl : load_loop sinkOk C sessions
      ⟨st.flushed, [], 0, st.total_loaded, st.attempts⟩ with
  | mk st1 errl =>
    rw [hl] at heq
    obtain ⟨new', m', es', c1, c2, c3, c4, c5, c6, c7, c8, c9, c10, c11,
      c12, c13⟩ := load_loop_spec sinkOk C sessions _ st1 errl hl rfl
        (by simpa using hC)
    simp only at c1 c3 c4 c6 c8 c11
    have hflat : new'.flatten ++ st1.cur = es' := by
      rw [c1] at c11
      simp only [List.flatten_append, List.append_nil] at c11
      rw [List.append_assoc] at c11
      exact List.append_cancel_left c11
    cases errl with
    | some e =>
      simp only at heq
      injection heq with hA hB
      subst hA
      subst hB
      refine ⟨new', [], m', es', by simpa using c1, c2, Or.inl rfl,
        by simpa using c3, by simpa using c4, ?_, ?_, by simpa using c8,
        c9, c10, by simpa using hflat, by simp, c13⟩
      · by_cases he : e = RunError.sinkError
        · subst he
          exact le_of_eq (c6 rfl).1
        · refine le_of_lt (c7 ?_)
          intro hcon
          injection hcon with hcon2
          exact he hcon2
      · intro hse
        injection hse with hse2
        subst hse2
        refine ⟨by simpa using (c6 rfl).2, ?_⟩
        have := (c6 rfl).1
        intro hnil
        rw [hnil] at this
        simp at this
        omega
    | none =>
      have hcurlt : st1.cur.length < C := c7 (by simp)
      have hm : m' = sessions.length := c12 rfl
      simp only at heq
      unfold flush_remainder at heq
      split at heq
      · rename_i hbc
        split at heq
        · rename_i hs
          injection heq with hA hB
          subst hA
          subst hB
          refine ⟨new', [st1.cur], m', es', ?_, c2, ?_, ?_, ?_, by simp, ?_,
            ?_, c9, c10, ?_, fun _ => ⟨rfl, hm⟩, by simp⟩
          · rw [c1]
            simp
          · refine Or.inr ⟨st1.cur, rfl, ?_, hcurlt⟩
            omega
          · simp only [List.flatten_append, List.flatten_cons,
              List.flatten_nil, List.append_nil, List.length_append]
            rw [c3]
            omega
          · simp only [List.length_append, List.length_cons,
              List.length_nil]
            rw [c4]
            simp
            omega
          · intro hcon
            exact absurd hcon (by simp)
          · intro i hi1 hi2
            simp only [List.length_append, List.length_cons,
              List.length_nil] at hi2
            by_cases hieq : i = st.attempts + new'.length
            · have : st1.attempts = st.attempts + new'.length := by
                rw [c4]; simp
              rw [hieq, ← this]
              exact hs
            · exact c8 i hi1 (by omega)
          · simp only [List.flatten_append, List.flatten_cons,
              List.flatten_nil, List.append_nil]
            exact hflat
        · rename_i hs
          injection heq with hA hB
          subst hA
          subst hB
          refine ⟨new', [], m', es', by simpa using c1, c2, Or.inl rfl,
            by simpa using c3, ?_, le_of_lt hcurlt, ?_, by simpa using c8,
            c9, c10, by simpa using hflat, by simp, by simp⟩
          · simp only [List.append_nil]
            rw [c4]
            simp
          · intro _
            constructor
            · have : st1.attempts = st.attempts + new'.length := by
                rw [c4]; simp
              rw [List.append_nil, ← this]
              simpa using hs
            · intro hnil
              simp only at hnil
              rw [c5, hnil] at hbc
              simp at hbc
      · rename_i hbc
        injection heq with hA hB
        subst hA
        subst hB
        have hcurnil : st1.cur = [] := by
          have : st1.batch_count = 0 := by omega
          rw [this] at c5
          exact (List.length_eq_zero.mp c5.symm)
        refine ⟨new', [], m', es', by simpa using c1, c2, Or.inl rfl,
          by simpa using c3, by simpa using c4, by simp [hcurnil], ?_,
          by simpa using c8, c9, c10, by simpa using hflat,
          fun _ => ⟨hcurnil, hm⟩, by simp⟩
        intro hcon
        exact absurd hcon (by simp)

theorem load_file_spec (sinkOk : Nat → Bool) {C : Nat} (hC : 0 < C)
    (sessions : List Session) :
    ∃ (newFull newRem : List (List Entry)) (m : Nat) (es : List Entry),
      (load_file sinkOk C sessions).flushed = newFull ++ newRem ∧
      (∀ b ∈ newFull, b.length = C) ∧
      (newRem = [] ∨ ∃ r, newRem = [r] ∧ 0 < r.length ∧ r.length < C) ∧
      (load_file sinkOk C sessions).total_loaded =
        (newFull ++ newRem).flatten.length ∧
      (load_file sinkOk C sessions).attempts = (newFull ++ newRem).length +
        (if (load_file sinkOk C sessions).error = some RunError.sinkError
          then 1 else 0) ∧
      (load_file sinkOk C sessions).leftover.length ≤ C ∧
      ((load_file sinkOk C sessions).error = some RunError.sinkError →
        sinkOk ((newFull ++ newRem).length) = false ∧
          (load_file sinkOk C sessions).leftover ≠ []) ∧
      (∀ i, i < (newFull ++ newRem).length → sinkOk i = true) ∧
      m ≤ sessions.length ∧
      transform_all (sessions.take m) = Except.ok es ∧
      (newFull ++ newRem).flatten ++ (load_file sinkOk C sessions).leftover
        = es ∧
      ((load_file sinkOk C sessions).error = none →
        (load_file sinkOk C sessions).leftover = [] ∧ m = sessions.length) ∧
      (∀ f, (load_file sinkOk C sessions).error = some (RunError.keyError f) →
        transform_all sessions = Except.error f) := by
  unfold load_file
  cases hl : load_one_file sinkOk C sessions ⟨[], [], 0, 0, 0⟩ with
  | mk st1 err1 =>
    obtain ⟨newFull, newRem, m, es, c1, c2, c3, c4, c5, c6, c7, c8, c9,
      c10, c11, c12, c13⟩ := load_one_file_spec sinkOk hC sessions _ st1 err1 hl
    simp only
    simp only at c1 c4 c5 c7 c8
    exact ⟨newFull, newRem, m, es, by simpa using c1, c2, c3,
      by simpa using c4, by simpa using c5, c6, by simpa using c7,
      fun i hi => c8 i (by omega) (by omega), c9, c10, c11, c12, c13⟩

theorem load_files_spec (sinkOk : Nat → Bool) {C : Nat} (hC : 0 < C) :
    ∀ (fls : List (List Session)) (st st' : LoadState)
      (err : Option RunError),
      load_files sinkOk C fls st = (st', err) →
      ∃ new : List (List Entry),
        st'.flushed = st.flushed ++ new ∧
        st'.total_loaded = st.total_loaded + new.flatten.length ∧
        (err = none → transform_all fls.flatten = Except.ok new.flatten) := by
  intro fls
  induction fls with
  | nil =>
    intro st st' err heq
    simp only [load_files] at heq
    injection heq with hA hB
    subst hA
    subst hB
    exact ⟨[], by simp, by simp, fun _ => transform_all_nil⟩
  | cons f fs ih =>
    intro st st' err heq
    simp only [load_files] at heq
    cases hof : load_one_file sinkOk C f st with
    | mk st1 err1 =>
      rw [hof] at heq
      obtain ⟨nf, nr, m, es, c1, c2, c3, c4, c5, c6, c7, c8, c9, c10, c11,
        c12, c13⟩ := load_one_file_spec sinkOk hC f st st1 err1 hof
      cases err1 with
      | some e =>
        simp only at heq
        injection heq with hA hB
        subst hA
        subst hB
        exact ⟨nf ++ nr, c1, c4, fun h => absurd h (by simp)⟩
      | none =>
        simp only at heq
        obtain ⟨hcur, hm⟩ := c12 rfl
        rw [hcur, List.append_nil] at c11
        rw [hm, List.take_length] at c10
        rw [← c11] at c10
        obtain ⟨new2, d1, d2, d3⟩ := ih st1 st' err heq
        refine ⟨(nf ++ nr) ++ new2, ?_, ?_, ?_⟩
        · rw [d1, c1, List.append_assoc]
        · rw [d2, c4]
          simp only [List.flatten_append, List.length_append]
          omega
        · intro hn
          simp only [List.flatten_cons]
          rw [List.flatten_append]
          exact transform_all_append_ok c10 (d3 hn)

theorem foldl_add_length :
    ∀ (L : List (List α)) (a : Nat),
      L.foldl (fun t b => t + b.length) a = a + L.flatten.length := by
  intro L
  induction L with
  | nil => intro a; simp
  | cons b L ih =>
    intro a
    simp only [List.foldl_cons, List.flatten_cons, List.length_append]
    rw [ih (a + b.length)]
    omega

theorem ceil_count {C k r : Nat} (hC : 0 < C) (hr : r < C) {N : Nat}
    (hN : N = C * k + r) :
    (N + C - 1) / C = k + (if r = 0 then 0 else 1) := by
  subst hN
  by_cases h0 : r = 0
  · subst h0
    have h1 : C * k + 0 + C - 1 = (C - 1) + C * k := by omega
    rw [h1, Nat.add_mul_div_left _ _ hC, Nat.div_eq_of_lt (by omega)]
    simp
  · have h1 : C * k + r + C - 1 = (r + C - 1) + C * k := by omega
    rw [h1, Nat.add_mul_div_left _ _ hC]
    have h2 := (Nat.div_mod_unique (a := r + C - 1) (b := C) (c := r - 1)
      (d := 1) hC).mpr ⟨by omega, by omega⟩
    simp only [h0, if_false]
    omega

theorem mod_count {C k r : Nat} (hr : r < C) {N : Nat} (hN : N = C * k + r) :
    N % C = r := by
  subst hN
  rw [Nat.mul_add_mod]
  exact Nat.mod_eq_of_lt hr

/-- C1: for a source of `N` records and positive capacity `C`, a successful
run of `load_sessions`' per-file ingest flushes exactly `⌈N / C⌉` batches
with `total_loaded = N`, the final batch holding the `N mod C` remainder
when `C` does not divide `N`; and `load_transactions` slices its data into
`⌈N / C⌉` `insert_many` batches totalling `N`, the last of size `N mod C`
when `C` does not divide `N`. -/
theorem claim_C1 {α : Type} (C : Nat) (ss : List Session) (es : List Entry)
    (data : List α) (hC : 0 < C) (hts : transform_all ss = Except.ok es) :
    (load_file (fun _ => true) C ss).error = none ∧
    (load_file (fun _ => true) C ss).flushed.length =
      (ss.length + C - 1) / C ∧
    (load_file (fun _ => true) C ss).total_loaded = ss.length ∧
    (ss.length % C ≠ 0 →
      ((load_file (fun _ => true) C ss).flushed.getLast?).map List.length =
        some (ss.length % C)) ∧
    (transaction_batches data C).length = (data.length + C - 1) / C ∧
    load_transactions_total data C = data.length ∧
    (data.length % C ≠ 0 →
      ((transaction_batches data C).getLast?).map List.length =
        some (data.length % C)) := by
  obtain ⟨nf, nr, m, es', c1, c2, c3, c4, c5, c6, c7, c8, c9, c10, c11,
    c12, c13⟩ := load_file_spec (fun _ => true) hC ss
  have herr : (load_file (fun _ => true) C ss).error = none := by
    cases herr : (load_file (fun _ => true) C ss).error with
    | none => rfl
    | some e =>
      cases e with
      | keyError f => exact absurd (c13 f herr) (by rw [hts]; simp)
      | sinkError => exact absurd (c7 herr).1 (by simp)
  obtain ⟨hleft, hm⟩ := c12 herr
  rw [hm, List.take_length, hts] at c10
  rw [hleft, List.append_nil] at c11
  have hes : es' = es := by
    injection c10 with h
    exact h.symm
  rw [hes] at c11
  have hN : es.length = ss.length := transform_all_length hts
  have hNF : nf.flatten.length = C * nf.length :=
    flatten_length_of_forall nf c2
  refine ⟨herr, ?_, ?_, ?_, ?_, ?_, ?_⟩
  · rw [c1]
    cases c3 with
    | inl h0 =>
      subst h0
      have hlen : ss.length = C * nf.length + 0 := by
        rw [← hN, ← c11]
        simp [hNF]
      rw [ceil_count hC hC hlen]
      simp
    | inr h1 =>
      obtain ⟨r, hr, hrpos, hrlt⟩ := h1
      subst hr
      have hlen : ss.length = C * nf.length + r.length := by
        rw [← hN, ← c11]
        simp only [List.flatten_append, List.flatten_cons, List.flatten_nil,
          List.append_nil, List.length_append]
        omega
      rw [ceil_count hC hrlt hlen]
      simp only [List.length_append, List.length_cons, List.length_nil]
      have : ¬(r.length = 0) := by omega
      simp [this]
  · rw [c4, c11, hN]
  · intro hmod
    cases c3 with
    | inl h0 =>
      subst h0
      have hlen : ss.length = C * nf.length + 0 := by
        rw [← hN, ← c11]
        simp [hNF]
      exact absurd (mod_count hC hlen) hmod
    | inr h1 =>
      obtain ⟨r, hr, hrpos, hrlt⟩ := h1
      subst hr
      have hlen : ss.length = C * nf.length + r.length := by
        rw [← hN, ← c11]
        simp only [List.flatten_append, List.flatten_cons, List.flatten_nil,
          List.append_nil, List.length_append]
        omega
      rw [c1, List.getLast?_concat]
      rw [mod_count hrlt hlen]
      rfl
  · exact chunkList_length hC data
  · unfold load_transactions_total
    rw [foldl_add_length]
    simp only [Nat.zero_add]
    unfold transaction_batches
    rw [chunkList_flatten hC data]
  · intro hmod
    exact chunkList_getLast hC data hmod

/-- Witness for C1 at a concrete input: three sessions, capacity 2,
five transaction documents. -/
theorem claim_C1_witness :
    0 < 2 ∧
    transform_all [wSession, wSession2, wSession3] =
      Except.ok [wEntryOf wSession, wEntryOf wSession2, wEntryOf wSession3] ∧
    (load_file (fun _ => true) 2 [wSession, wSession2, wSession3]).flushed.length = 2 ∧
    (load_file (fun _ => true) 2 [wSession, wSession2, wSession3]).total_loaded = 3 ∧
    (transaction_batches [0, 1, 2, 3, 4] 2).length = 3 := by
  refine ⟨by decide, by rfl, ?_, ?_, ?_⟩
  · exact (claim_C1 2 [wSession, wSession2, wSession3]
      [wEntryOf wSession, wEntryOf wSession2, wEntryOf wSession3]
      ([] : List Nat) (by decide) (by rfl)).2.1
  · exact (claim_C1 2 [wSession, wSession2, wSession3]
      [wEntryOf wSession, wEntryOf wSession2, wEntryOf wSession3]
      ([] : List Nat) (by decide) (by rfl)).2.2.1
  · exact (claim_C1 2 ([] : List Session) [] [0, 1, 2, 3, 4]
      (by decide) (by rfl)).2.2.2.2.1

/-- C2: on a successful run the flushed batches, concatenated in order,
are exactly the transforms of the source records — every consumed record
is in exactly one flushed batch; on any run (including failed ones) the
flushed records followed by the unsent leftover batch are exactly the
transforms of the consumed prefix, so no record is silently dropped or
duplicated. -/
theorem claim_C2 (sinkOk : Nat → Bool) (C : Nat) (ss : List Session)
    (hC : 0 < C) :
    ((load_file sinkOk C ss).error = none →
      ∃ es, transform_all ss = Except.ok es ∧
        (load_file sinkOk C ss).flushed.flatten = es) ∧
    (∃ m es, m ≤ ss.length ∧ transform_all (ss.take m) = Except.ok es ∧
      (load_file sinkOk C ss).flushed.flatten ++
        (load_file sinkOk C ss).leftover = es) := by
  obtain ⟨nf, nr, m, es, c1, c2, c3, c4, c5, c6, c7, c8, c9, c10, c11,
    c12, c13⟩ := load_file_spec sinkOk hC ss
  constructor
  · intro herr
    obtain ⟨hleft, hm⟩ := c12 herr
    rw [hm, List.take_length] at c10
    rw [hleft, List.append_nil] at c11
    exact ⟨es, c10, by rw [c1, c11]⟩
  · exact ⟨m, es, c9, c10, by rw [c1]; exact c11⟩

/-- Witness for C2: one session, capacity 1, always-available sink. -/
theorem claim_C2_witness :
    0 < 1 ∧
    (((load_file (fun _ => true) 1 [wSession]).error = none →
      ∃ es, transform_all [wSession] = Except.ok es ∧
        (load_file (fun _ => true) 1 [wSession]).flushed.flatten = es) ∧
    (∃ m es, m ≤ [wSession].length ∧
      transform_all ([wSession].take m) = Except.ok es ∧
      (load_file (fun _ => true) 1 [wSession]).flushed.flatten ++
        (load_file (fun _ => true) 1 [wSession]).leftover = es)) :=
  ⟨by decide, claim_C2 (fun _ => true) 1 [wSession] (by decide)⟩

/-- C3: no batch ever exceeds the configured capacity: every flushed batch
has at most `batch_size` records, every flushed batch except possibly the
last has exactly `batch_size` records (the flush fires as soon as the
count reaches capacity), and the in-memory batch left at termination holds
at most `batch_size` records. -/
theorem claim_C3 (sinkOk : Nat → Bool) (C : Nat) (ss : List Session)
    (hC : 0 < C) :
    (∀ b ∈ (load_file sinkOk C ss).flushed, b.length ≤ C) ∧
    (∀ b ∈ (load_file sinkOk C ss).flushed.dropLast, b.length = C) ∧
    (load_file sinkOk C ss).leftover.length ≤ C := by
  obtain ⟨nf, nr, m, es, c1, c2, c3, c4, c5, c6, c7, c8, c9, c10, c11,
    c12, c13⟩ := load_file_spec sinkOk hC ss
  refine ⟨?_, ?_, c6⟩
  · intro b hb
    rw [c1] at hb
    rcases List.mem_append.mp hb with h | h
    · exact le_of_eq (c2 b h)
    · cases c3 with
      | inl h0 => rw [h0] at h; exact absurd h (by simp)
      | inr h1 =>
        obtain ⟨r, hr, hrpos, hrlt⟩ := h1
        rw [hr] at h
        rw [List.mem_singleton.mp h]
        exact le_of_lt hrlt
  · intro b hb
    rw [c1] at hb
    cases c3 with
    | inl h0 =>
      rw [h0, List.append_nil] at hb
      exact c2 b ((List.dropLast_sublist nf).subset hb)
    | inr h1 =>
      obtain ⟨r, hr, hrpos, hrlt⟩ := h1
      rw [hr, List.dropLast_concat] at hb
      exact c2 b hb

/-- Witness for C3: three sessions, capacity 2. -/
theorem claim_C3_witness :
    0 < 2 ∧
    ((∀ b ∈ (load_file (fun _ => true) 2
        [wSession, wSession2, wSession3]).flushed, b.length ≤ 2) ∧
    (∀ b ∈ (load_file (fun _ => true) 2
        [wSession, wSession2, wSession3]).flushed.dropLast, b.length = 2) ∧
    (load_file (fun _ => true) 2
        [wSession, wSession2, wSession3]).leftover.length ≤ 2) :=
  ⟨by decide,
   claim_C3 (fun _ => true) 2 [wSession, wSession2, wSession3] (by decide)⟩

/-- C4 counterexample: two different source records (they differ in
`session_id`) that share `user_id` and `start_time` get the same row key,
which then occurs twice among the flushed writes of one successful run —
the claim is false as stated. -/
theorem claim_C4_counterexample :
    wSession ≠ wSession2 ∧
    ¬ (((load_file (fun _ => true) 1000
        [wSession, wSession2]).flushed.flatten.map Prod.fst).Nodup) := by
  constructor
  · decide
  · decide

/-- C4 (amended): when the generated row keys of the source records are
pairwise distinct, no row key appears in two different flushed writes of
one run. -/
theorem claim_C4 (sinkOk : Nat → Bool) (C : Nat) (ss : List Session)
    (es : List Entry) (hC : 0 < C)
    (hts : transform_all ss = Except.ok es)
    (hnd : (es.map Prod.fst).Nodup) :
    ((load_file sinkOk C ss).flushed.flatten.map Prod.fst).Nodup := by
  obtain ⟨nf, nr, m, es', c1, c2, c3, c4, c5, c6, c7, c8, c9, c10, c11,
    c12, c13⟩ := load_file_spec sinkOk hC ss
  have htake := transform_all_take hts m
  rw [c10] at htake
  have hes' : es' = es.take m := by
    injection htake with h
  rw [hes'] at c11
  have hpre : (load_file sinkOk C ss).flushed.flatten <+: es :=
    List.IsPrefix.trans ⟨(load_file sinkOk C ss).leftover, by rw [c1]; exact c11⟩
      (List.take_prefix m es)
  exact List.Nodup.sublist (List.Sublist.map Prod.fst hpre.sublist) hnd

/-- Witness for C4 (amended): two sessions with distinct row keys. -/
theorem claim_C4_witness :
    (0 < 1000 ∧
    transform_all [wSession, wSession3] =
      Except.ok [wEntryOf wSession, wEntryOf wSession3] ∧
    (([wEntryOf wSession, wEntryOf wSession3].map Prod.fst).Nodup)) ∧
    ((load_file (fun _ => true) 1000
      [wSession, wSession3]).flushed.flatten.map Prod.fst).Nodup :=
  ⟨⟨by decide, by rfl, by decide⟩,
   claim_C4 (fun _ => true) 1000 [wSession, wSession3]
     [wEntryOf wSession, wEntryOf wSession3] (by decide) (by rfl) (by decide)⟩

/-- C5: when the sink write fails, the run aborts: exactly one more send
was attempted than succeeded (so the next batch is never attempted), every
batch before the failing one was sent with the sink reporting success, the
failing send is the one the sink refused, and the unsent batch is left
behind, not retried. -/
theorem claim_C5 (sinkOk : Nat → Bool) (C : Nat) (ss : List Session)
    (hC : 0 < C)
    (hfail : (load_file sinkOk C ss).error = some RunError.sinkError) :
    (load_file sinkOk C ss).attempts =
      (load_file sinkOk C ss).flushed.length + 1 ∧
    (∀ i, i < (load_file sinkOk C ss).flushed.length → sinkOk i = true) ∧
    sinkOk ((load_file sinkOk C ss).flushed.length) = false ∧
    (load_file sinkOk C ss).leftover ≠ [] := by
  obtain ⟨nf, nr, m, es, c1, c2, c3, c4, c5, c6, c7, c8, c9, c10, c11,
    c12, c13⟩ := load_file_spec sinkOk hC ss
  have hlen : (load_file sinkOk C ss).flushed.length = (nf ++ nr).length := by
    rw [c1]
  refine ⟨?_, ?_, ?_, (c7 hfail).2⟩
  · rw [hlen, c5, hfail]
    simp
  · intro i hi
    exact c8 i (by omega)
  · rw [hlen]
    exact (c7 hfail).1

/-- Witness for C5: capacity 1, a sink that accepts only the first send. -/
theorem claim_C5_witness :
    (0 < 1 ∧
    (load_file (fun i => i == 0) 1
      [wSession, wSession2, wSession3]).error = some RunError.sinkError) ∧
    ((load_file (fun i => i == 0) 1
        [wSession, wSession2, wSession3]).attempts =
      (load_file (fun i => i == 0) 1
        [wSession, wSession2, wSession3]).flushed.length + 1 ∧
    (∀ i, i < (load_file (fun i => i == 0) 1
        [wSession, wSession2, wSession3]).flushed.length →
      (fun i => i == 0) i = true) ∧
    (fun i => i == 0) ((load_file (fun i => i == 0) 1
        [wSession, wSession2, wSession3]).flushed.length) = false ∧
    (load_file (fun i => i == 0) 1
      [wSession, wSession2, wSession3]).leftover ≠ []) :=
  ⟨⟨by decide, by decide⟩,
   claim_C5 (fun i => i == 0) 1 [wSession, wSession2, wSession3]
     (by decide) (by decide)⟩

/-- C6 counterexample: there is no skip-and-count mode. On a source whose
second record is missing the required `referrer` field, the run does not
succeed with `flushed = N - 1 = 2` and a recorded skip: it aborts with the
uncaught `KeyError` and `total_loaded = 0`. -/
theorem claim_C6_counterexample :
    (load_file (fun _ => true) 1000
      [wSession, wSessionBad, wSession3]).error =
        some (RunError.keyError "referrer".data) ∧
    (load_file (fun _ => true) 1000
      [wSession, wSessionBad, wSession3]).total_loaded = 0 ∧
    ¬((load_file (fun _ => true) 1000
        [wSession, wSessionBad, wSession3]).error = none ∧
      (load_file (fun _ => true) 1000
        [wSession, wSessionBad, wSession3]).total_loaded = 2) := by
  refine ⟨by decide, by decide, ?_⟩
  intro h
  exact absurd h.1 (by decide)

/-- C6 (amended): the loader takes no skip/abort configuration parameter
and always fails fast: whenever some record's transform fails (first
failure `f`), the whole run aborts with that `KeyError`, nothing is
recorded as skipped. -/
theorem claim_C6 (C : Nat) (ss : List Session) (f : Str) (hC : 0 < C)
    (hts : transform_all ss = Except.error f) :
    (load_file (fun _ => true) C ss).error =
      some (RunError.keyError f) := by
  obtain ⟨nf, nr, m, es, c1, c2, c3, c4, c5, c6, c7, c8, c9, c10, c11,
    c12, c13⟩ := load_file_spec (fun _ => true) hC ss
  cases herr : (load_file (fun _ => true) C ss).error with
  | none =>
    obtain ⟨hleft, hm⟩ := c12 herr
    rw [hm, List.take_length, hts] at c10
    exact absurd c10 (by simp)
  | some e =>
    cases e with
    | sinkError => exact absurd (c7 herr).1 (by simp)
    | keyError f' =>
      have := c13 f' herr
      rw [hts] at this
      injection this with h
      rw [h]

/-- Witness for C6 (amended): a source whose second record is missing
`referrer`. -/
theorem claim_C6_witness :
    (0 < 1000 ∧
    transform_all [wSession, wSessionBad] =
      Except.error "referrer".data) ∧
    (load_file (fun _ => true) 1000 [wSession, wSessionBad]).error =
      some (RunError.keyError "referrer".data) :=
  ⟨⟨by decide, by rfl⟩,
   claim_C6 1000 [wSession, wSessionBad] "referrer".data
     (by decide) (by rfl)⟩

/-- C7 counterexample: the claim says a failed run returns a summary
reporting failure; in the code a failing `batch.send()` raises, so
`load_sessions` returns nothing at all (`ret = none`) on this concrete
failing run. -/
theorem claim_C7_counterexample :
    (load_sessions (fun _ => false) 1 ["sessions_1.json".data]
      (fun _ => [wSession, wSession2])).error = some RunError.sinkError ∧
    (load_sessions (fun _ => false) 1 ["sessions_1.json".data]
      (fun _ => [wSession, wSession2])).ret = none := by
  constructor
  · decide
  · decide

/-- C7 (amended): `load_sessions` returns only the total loaded count, not
a full summary: on a successful run the returned value is
`total_loaded`, which equals both the number of flushed records and the
number of records read from the matched files; on a failed run the
exception propagates and nothing is returned. -/
theorem claim_C7 (sinkOk : Nat → Bool) (C : Nat) (dirFiles : List Str)
    (contents : Str → List Session) (hC : 0 < C) :
    ((load_sessions sinkOk C dirFiles contents).error ≠ none →
      (load_sessions sinkOk C dirFiles contents).ret = none) ∧
    ((load_sessions sinkOk C dirFiles contents).error = none →
      (load_sessions sinkOk C dirFiles contents).ret =
        some (load_sessions sinkOk C dirFiles contents).total_loaded ∧
      transform_all (((session_files_of dirFiles).map contents).flatten) =
        Except.ok
          ((load_sessions sinkOk C dirFiles contents).flushed.flatten) ∧
      (load_sessions sinkOk C dirFiles contents).total_loaded =
        (((session_files_of dirFiles).map contents).flatten).length) := by
  by_cases hempty : session_files_of dirFiles = []
  · have hres : load_sessions sinkOk C dirFiles contents =
        ⟨some 0, [], [], 0, 0, none⟩ := by
      simp only [load_sessions, hempty, if_pos]
    rw [hres]
    refine ⟨fun h => absurd rfl h, fun _ => ⟨rfl, ?_, ?_⟩⟩
    · rw [hempty]
      exact transform_all_nil
    · rw [hempty]
      rfl
  · cases hlf : load_files sinkOk C ((session_files_of dirFiles).map contents)
        ⟨[], [], 0, 0, 0⟩ with
    | mk st1 err1 =>
      obtain ⟨new, d1, d2, d3⟩ := load_files_spec sinkOk hC
        ((session_files_of dirFiles).map contents) _ st1 err1 hlf
      simp only at d1 d2
      cases err1 with
      | some e =>
        have hres : load_sessions sinkOk C dirFiles contents =
            ⟨none, st1.flushed, st1.cur, st1.total_loaded, st1.attempts,
              some e⟩ := by
          simp only [load_sessions, if_neg hempty, hlf]
        rw [hres]
        exact ⟨fun _ => rfl, fun h => absurd h (by simp)⟩
      | none =>
        have hres : load_sessions sinkOk C dirFiles contents =
            ⟨some st1.total_loaded, st1.flushed, [], st1.total_loaded,
              st1.attempts, none⟩ := by
          simp only [load_sessions, if_neg hempty, hlf]
        rw [hres]
        refine ⟨fun h => absurd rfl h, fun _ => ⟨rfl, ?_, ?_⟩⟩
        · show transform_all _ = Except.ok st1.flushed.flatten
          rw [d1]
          simp only [List.nil_append]
          exact d3 rfl
        · show st1.total_loaded = _
          have hok := d3 rfl
          have := transform_all_length hok
          rw [d2]
          simp only [List.nil_append, Nat.zero_add] at d1 ⊢
          omega

/-- Witness for C7 (amended): one matching session file with one record,
always-available sink. -/
theorem claim_C7_witness :
    0 < 1000 ∧
    ((load_sessions (fun _ => true) 1000 ["sessions_1.json".data]
        (fun _ => [wSession])).error = none →
      (load_sessions (fun _ => true) 1000 ["sessions_1.json".data]
        (fun _ => [wSession])).ret =
        some (load_sessions (fun _ => true) 1000 ["sessions_1.json".data]
          (fun _ => [wSession])).total_loaded ∧
      transform_all (((session_files_of
          ["sessions_1.json".data]).map (fun _ => [wSession])).flatten) =
        Except.ok ((load_sessions (fun _ => true) 1000
          ["sessions_1.json".data] (fun _ => [wSession])).flushed.flatten) ∧
      (load_sessions (fun _ => true) 1000 ["sessions_1.json".data]
        (fun _ => [wSession])).total_loaded =
        (((session_files_of ["sessions_1.json".data]).map
          (fun _ => [wSession])).flatten).length) :=
  ⟨by decide,
   (claim_C7 (fun _ => true) 1000 ["sessions_1.json".data]
     (fun _ => [wSession]) (by decide)).2⟩

/-- C8: re-running a successful ingest of an unchanged source against a
sink that treats equal-key writes as overwrites leaves the sink in the
same state as a single run. -/
theorem claim_C8 (C : Nat) (ss : List Session) (s0 : SinkState) :
    apply_writes (load_file (fun _ => true) C ss).flushed.flatten
        (apply_writes
          (load_file (fun _ => true) C ss).flushed.flatten s0) =
      apply_writes (load_file (fun _ => true) C ss).flushed.flatten s0 :=
  apply_writes_idem _ s0

/-- C9: for a `user_id` with exactly one underscore and a `start_time`
with none, the query scripts' user-id extraction (split the row key on
`'_'`, rejoin the first two parts) inverts `generate_row_key`. -/
theorem claim_C9 (u t : Str) (hu : u.count '_' = 1) (ht : t.count '_' = 0) :
    extract_user_id (generate_row_key u t) = some u := by
  have hlen := splitOnChar_length '_' u
  rw [hu] at hlen
  cases hsp : splitOnChar '_' u with
  | nil => exact absurd hsp (splitOnChar_ne_nil '_' u)
  | cons a l =>
    cases l with
    | nil => rw [hsp] at hlen; simp at hlen
    | cons b l2 =>
      cases l2 with
      | cons c l3 =>
        rw [hsp] at hlen
        simp at hlen
      | nil =>
        have hub : u = a ++ '_' :: b := eq_append_of_splitOnChar_pair hsp
        unfold extract_user_id generate_row_key
        rw [splitOnChar_append '_' u t, hsp,
          splitOnChar_of_count_zero ht]
        simp only [List.cons_append, List.nil_append]
        rw [← hub]

/-- Witness for C9 at the spec's own example shape. -/
theorem claim_C9_witness :
    ("user_0".data.count '_' = 1 ∧ "t1".data.count '_' = 0) ∧
    extract_user_id (generate_row_key "user_0".data "t1".data) =
      some "user_0".data :=
  ⟨⟨by decide, by decide⟩,
   claim_C9 "user_0".data "t1".data (by decide) (by decide)⟩

/-- C10: when no directory entry matches `sessions_*.json`,
`load_sessions` returns 0, flushes nothing, never touches the sink, and
leaves any sink state unchanged. -/
theorem claim_C10 (sinkOk : Nat → Bool) (C : Nat) (dirFiles : List Str)
    (contents : Str → List Session)
    (h : ∀ f ∈ dirFiles,
      ("sessions_".data.isPrefixOf f && ".json".data.isSuffixOf f)
        = false) :
    load_sessions sinkOk C dirFiles contents =
      ⟨some 0, [], [], 0, 0, none⟩ ∧
    (∀ s0 : SinkState,
      apply_writes
        (load_sessions sinkOk C dirFiles contents).flushed.flatten s0
        = s0) := by
  have hfilter : dirFiles.filter (fun f => "sessions_".data.isPrefixOf f
      && ".json".data.isSuffixOf f) = [] := by
    rw [List.filter_eq_nil_iff]
    intro a ha
    simp [h a ha]
  have hsf : session_files_of dirFiles = [] := by
    unfold session_files_of
    rw [hfilter]
    rfl
  have hres : load_sessions sinkOk C dirFiles contents =
      ⟨some 0, [], [], 0, 0, none⟩ := by
    simp only [load_sessions, hsf, if_pos]
  refine ⟨hres, fun s0 => ?_⟩
  rw [hres]
  rfl

/-- Witness for C10: a directory with no `sessions_*.json` entry. -/
theorem claim_C10_witness :
    (∀ f ∈ ["transactions.json".data, "sessions_1.txt".data],
      ("sessions_".data.isPrefixOf f && ".json".data.isSuffixOf f)
        = false) ∧
    load_sessions (fun _ => true) 1000
      ["transactions.json".data, "sessions_1.txt".data]
      (fun _ => [wSession]) = ⟨some 0, [], [], 0, 0, none⟩ :=
  ⟨by decide,
   (claim_C10 (fun _ => true) 1000
     ["transactions.json".data, "sessions_1.txt".data]
     (fun _ => [wSession]) (by decide)).1⟩
